import Mathlib

/-!
# Verification of the NotebookLM browser-automation core

Shallow embedding, in Lean 4, of the session/completion-detection core of the
`notebooklm-blog-automation` repository:

* `src/utils/page-utils.ts` — `hashString`, `extractLatestText`,
  `waitForLatestAnswer` (streaming completion detection);
* `src/session/browser-session.ts` — `ask` (with its closed-context recovery
  cycle), `detectRateLimitError`, message counting;
* the session manager (`getOrCreateSession`, `cleanupOldestSession`,
  `closeSession`);
* `AuthManager` cookie/state validation (`validateCookiesExpiry`,
  `isStateExpired`, `getValidStatePath`).

Browser/DOM effects are represented by explicit inputs: the result of each DOM
query becomes a field of a page-model structure, and each `async` function
becomes a pure function of those inputs.  Machine arithmetic (the JS 32-bit
hash) is modelled on `Int` with explicit wrapping.
-/

namespace NotebookLM

/-! ## JS string and hash primitives -/

/-- Wrap an integer into the signed 32-bit range, as JS `| 0` / `& hash`
coercion (`ToInt32`) does. -/
def toInt32 (n : Int) : Int :=
  ((n + 2 ^ 31) % 2 ^ 32) - 2 ^ 31

/-- One step of the JS hash loop in `page-utils.ts`:
`hash = (hash << 5) - hash + char; hash = hash & hash;`.
`hash << 5` first coerces to int32, the sum is then coerced by `& hash`. -/
def hashStep (h : Int) (c : Nat) : Int :=
  toInt32 (toInt32 (h * 32) - h + c)

/-- `hashString` from `page-utils.ts`: fold `hashStep` over the UTF-16 code
units of the string (code points coincide for the BMP texts involved). -/
def hashString (s : String) : Int :=
  s.data.foldl (fun h c => hashStep h c.toNat) 0

/-- JS `String.prototype.trim`: strip leading and trailing whitespace
(ASCII whitespace, which covers every text in play). -/
def trimStr (s : String) : String :=
  ⟨((s.data.dropWhile Char.isWhitespace).reverse.dropWhile Char.isWhitespace).reverse⟩

/-- JS `String.prototype.toLowerCase` (ASCII lowering, which covers every
keyword/pattern in play). -/
def toLowerStr (s : String) : String :=
  ⟨s.data.map Char.toLower⟩

/-- Occurrence of `pat` as a contiguous run of `l`. -/
def occursIn (pat : List Char) : List Char → Bool
  | [] => pat.isEmpty
  | c :: rest => pat.isPrefixOf (c :: rest) || occursIn pat rest

/-- JS `String.prototype.includes`. -/
def containsSub (s pat : String) : Bool :=
  occursIn pat.data s.data

/-- JS `String.prototype.startsWith`. -/
def startsWithStr (s pat : String) : Bool :=
  pat.data.isPrefixOf s.data

/-- The rest of `l` after the first occurrence of `pat` (`none` when `pat`
does not occur). -/
def afterFirstList (pat : List Char) : List Char → Option (List Char)
  | [] => if pat.isEmpty then some [] else none
  | c :: rest =>
    if pat.isPrefixOf (c :: rest) then some ((c :: rest).drop pat.length)
    else afterFirstList pat rest

/-- Insert a hash into the known-hash set (`Set.add` semantics: no
duplicates). -/
def insertHash (h : Int) (known : List Int) : List Int :=
  if known.contains h then known else h :: known

/-! ## Completion detection (`waitForLatestAnswer`, `page-utils.ts:150-272`)

One poll tick of the loop either sees the `div.thinking-message` indicator
(and skips extraction) or observes the result of `extractLatestText`.  The
claim quantifies over poll sequences, so the sequence of observations is the
input of the model; the loop state (`lastCandidate`, `stableCount`,
`knownHashes`, `pollCount`) is threaded explicitly. -/

/-- What one poll tick of `waitForLatestAnswer` observes. -/
inductive Poll where
  /-- `div.thinking-message` is visible: the tick is skipped. -/
  | thinking : Poll
  /-- The tick ran `extractLatestText`, producing this result. -/
  | extracted : Option String → Poll
deriving DecidableEq, Repr

/-- The loop body of `waitForLatestAnswer`.  `sq` is the sanitized question,
`last`/`stable` mirror `lastCandidate`/`stableCount`, `count` is the number of
polls already performed, `known` the hash set.  Returns the stable answer
together with the (1-based) poll number at which it is returned; `none` models
running out of polls before the deadline (timeout). -/
def waitAux (sq : String) :
    List Poll → Option String → Nat → Nat → List Int → Option (String × Nat)
  | [], _, _, _, _ => none
  | p :: rest, last, stable, count, known =>
    match p with
    | .thinking => waitAux sq rest last stable (count + 1) known
    | .extracted none => waitAux sq rest last stable (count + 1) known
    | .extracted (some s) =>
      let n := trimStr s
      if n = "" then
        waitAux sq rest last stable (count + 1) known
      else if toLowerStr n = sq then
        -- question echo: mark its hash as seen and continue
        waitAux sq rest last stable (count + 1) (insertHash (hashString n) known)
      else if some n = last then
        -- text unchanged: stable
        if 3 ≤ stable + 1 then some (n, count + 1)
        else waitAux sq rest last (stable + 1) (count + 1) known
      else
        -- text changed: streaming in progress
        waitAux sq rest (some n) 1 (count + 1) known

/-- `waitForLatestAnswer` from `page-utils.ts`: seed the known-hash set from
`ignoreTexts`, then run the poll loop with `lastCandidate = null`,
`stableCount = 0`, `pollCount = 0`. -/
def waitForLatestAnswer (question : String) (ignoreTexts : List String)
    (polls : List Poll) : Option (String × Nat) :=
  let sanitizedQuestion := toLowerStr (trimStr question)
  let known := ignoreTexts.foldl
    (fun acc t => if trimStr t = "" then acc else insertHash (hashString (trimStr t)) acc) []
  waitAux sanitizedQuestion polls none 0 0 known

/-- The effective candidate a poll contributes to the stability comparison:
`none` for skipped ticks, failed extraction, whitespace-only text and question
echoes; otherwise the trimmed text. -/
def effCand (sq : String) : Poll → Option String
  | .thinking => none
  | .extracted none => none
  | .extracted (some s) =>
    let n := trimStr s
    if n = "" then none
    else if toLowerStr n = sq then none
    else some n

/-- The effective candidates already accounted for by the loop state: a
`stableCount` of `k` on candidate `c` stands for `k` trailing observations of
`c`. -/
def effsState : Option String → Nat → List String
  | none, _ => []
  | some c, stable => List.replicate stable c

/-! ## Text extraction (`extractLatestText`, `page-utils.ts:284-465`)

The DOM queries become fields of a page model:
* `primaryFailure` — `page.$$(".to-user-container")` threw (the only way the
  code reaches its fallbacks, since on a successful query every branch of the
  primary path ends in `return`);
* `primaryContainers` — per `.to-user-container` element, in document order,
  the `innerText` of its `.message-text-content` child (`none` if absent);
* `fallbackElements` — per `RESPONSE_SELECTORS` entry, in priority order, the
  resolved container `innerText` of each matched element in document order;
* `rawCandidates` — the final `page.evaluate` scan: the texts of visible,
  deduplicated elements matching the author/role-like attribute selectors, in
  scan order. -/

/-- Page model for one `extractLatestText` call. -/
structure PageModel where
  primaryFailure : Bool
  primaryContainers : List (Option String)
  fallbackElements : List (List String)
  rawCandidates : List String
deriving Repr

/-- The primary-path scan (`page-utils.ts:318-342`): first container whose
`.message-text-content` text is non-blank and has an unseen hash. -/
def firstNewPrimary : List (Option String) → List Int → Option String
  | [], _ => none
  | none :: rest, known => firstNewPrimary rest known
  | some t :: rest, known =>
    let tt := trimStr t
    if tt = "" then firstNewPrimary rest known
    else if known.contains (hashString tt) then firstNewPrimary rest known
    else some tt

/-- The scan of one fallback selector's elements (`page-utils.ts:371-396`):
first element whose resolved container text is non-blank with unseen hash. -/
def firstNewElems : List String → List Int → Option String
  | [], _ => none
  | t :: rest, known =>
    let tt := trimStr t
    if tt = "" then firstNewElems rest known
    else if known.contains (hashString tt) then firstNewElems rest known
    else some tt

/-- The fallback-selector cascade (`page-utils.ts:365-400`): try each selector
in priority order, returning the first hit. -/
def firstNewFallback : List (List String) → List Int → Option String
  | [], _ => none
  | elems :: rest, known =>
    match firstNewElems elems known with
    | some t => some t
    | none => firstNewFallback rest known

/-- The final raw-DOM scan (`page-utils.ts:402-459`): collect all visible
non-blank candidate texts (trimmed) and return the LAST one; `knownHashes` is
not consulted on this path. -/
def rawScan (raw : List String) : Option String :=
  ((raw.map trimStr).filter (fun t => t ≠ "")).getLast?

/-- `extractLatestText` from `page-utils.ts`.  On a successful primary query
the function always returns from the primary branch: it early-exits with
`null` when the container count does not exceed the known-hash count, and
otherwise returns the scan result without falling through (`return null;
// Don't fall through to fallback!`).  The fallback selectors and the raw scan
run only when the primary query threw. -/
def extractLatestText (page : PageModel) (knownHashes : List Int) : Option String :=
  if !page.primaryFailure then
    if page.primaryContainers.length ≤ knownHashes.length then none
    else firstNewPrimary page.primaryContainers knownHashes
  else
    match firstNewFallback page.fallbackElements knownHashes with
    | some t => some t
    | none =>
      match rawScan page.rawCandidates with
      | some t => some t
      | none => none

/-- Specification-side scan used to state the first-unseen-hash rule: the
first text in the given document-order list whose trimmed form is non-blank
and whose hash is not known. -/
def specFirstUnseen (texts : List String) (known : List Int) : Option String :=
  (texts.map trimStr).find? (fun t => t ≠ "" && !known.contains (hashString t))

/-! ## `ask` (`browser-session.ts:359-466`) and rate-limit detection -/

/-- Keywords indicating rate limiting (`browser-session.ts:534-545`). -/
def rateLimitKeywords : List String :=
  ["rate limit", "limit exceeded", "quota exhausted", "daily limit",
   "limit reached", "too many requests", "ratenlimit", "quota",
   "query limit", "request limit"]

/-- Whether a region text contains a rate-limit keyword (the code compares on
`text.toLowerCase()`). -/
def hasRateLimitKeyword (t : String) : Bool :=
  rateLimitKeywords.any (fun k => containsSub (toLowerStr t) k)

/-- `detectRateLimitError` (`browser-session.ts:516-601`): scan the texts of
the error-container selectors (`.error-message`, `[role='alert']`, …) for a
keyword; otherwise, if the chat input is disabled, scan its parent's text. -/
def detectRateLimitError (errorRegions : List String)
    (disabledInputParentText : Option String) : Bool :=
  if errorRegions.any hasRateLimitKeyword then true
  else
    match disabledInputParentText with
    | some t => hasRateLimitKeyword t
    | none => false

/-- The error type thrown by `ask`: `RateLimitError` is a distinct class
(`errors.ts`); everything else carries only its message. -/
inductive AskError where
  | rateLimit : String → AskError
  | failure : String → AskError
deriving DecidableEq, Repr

/-- The message of an ask error (`String(error?.message || error)`). -/
def AskError.message : AskError → String
  | .rateLimit m => m
  | .failure m => m

/-- `p` occurs in `s` and is followed (not necessarily adjacently) by `q` —
the shape of a regex `p .* q` alternative. -/
def followedBy (s p q : String) : Bool :=
  match afterFirstList p.data s.data with
  | none => false
  | some rest => occursIn q.data rest

/-- The closed-context detection regex of `browser-session.ts:450`
(`/has been closed|Target .* closed|Browser has been closed|Context .* closed/i`),
evaluated on the lower-cased message. -/
def closedPattern (msg : String) : Bool :=
  let m := toLowerStr msg
  containsSub m "has been closed" || followedBy m "target " " closed" ||
    containsSub m "browser has been closed" || followedBy m "context " " closed"

/-- The observable environment of one `askOnce` attempt.  `driverError` is an
exception thrown by any page/driver operation of the attempt (init,
snapshotting, typing, submitting) — these all occur before the message-count
update.  `reAuthNeeded` is `!validateCookiesExpiry`, `reAuthOk` the result of
`ensureAuthenticated` when invoked.  `answer` is the `waitForLatestAnswer`
result, and the last two fields feed `detectRateLimitError`. -/
structure AskAttempt where
  driverError : Option String
  reAuthNeeded : Bool
  reAuthOk : Bool
  answer : Option String
  errorRegions : List String
  disabledInputParentText : Option String
deriving Repr

/-- The `askOnce` closure (`browser-session.ts:360-444`): fail on a driver
exception or failed re-authentication; raise a timeout failure when no answer
stabilized; after a successful extraction raise `RateLimitError` when
detected; otherwise increment `messageCount` and return the answer. -/
def askOnce (env : AskAttempt) (messageCount : Nat) :
    Except AskError (String × Nat) :=
  match env.driverError with
  | some e => .error (.failure e)
  | none =>
    if env.reAuthNeeded && !env.reAuthOk then
      .error (.failure "Failed to re-authenticate session")
    else
      match env.answer with
      | none => .error (.failure "Timeout waiting for response from NotebookLM")
      | some a =>
        if detectRateLimitError env.errorRegions env.disabledInputParentText then
          .error (.rateLimit "NotebookLM rate limit reached (50 queries/day for free accounts)")
        else
          .ok (a, messageCount + 1)

/-- `ask` (`browser-session.ts:446-465`): run `askOnce`; when it throws an
error whose message matches `closedPattern`, perform one recovery cycle (mark
uninitialized, close the page, `init()`, retry `askOnce`) and surface whatever
the recovery produced — `recoveryInitError` is the error thrown by the
recovery `init()`, if any.  Returns the result, the new `messageCount` and
the number of recovery cycles performed. -/
def ask (env1 : AskAttempt) (recoveryInitError : Option String)
    (env2 : AskAttempt) (messageCount : Nat) :
    Except AskError String × Nat × Nat :=
  match askOnce env1 messageCount with
  | .ok (a, mc) => (.ok a, mc, 0)
  | .error e =>
    if closedPattern e.message then
      match recoveryInitError with
      | some ie => (.error (.failure ie), messageCount, 1)
      | none =>
        match askOnce env2 messageCount with
        | .ok (a, mc) => (.ok a, mc, 1)
        | .error e2 => (.error e2, messageCount, 1)
    else (.error e, messageCount, 0)

/-! ## Session manager (`session-manager.ts`)

The pool is a `Map<string, BrowserSession>`; JS maps iterate in insertion
order and hold at most one entry per key, so the model is an insertion-ordered
list of sessions with `sessionId` as the key (key-uniqueness is an invariant
of the map and appears as a `Nodup` hypothesis where needed). -/

/-- The pool-relevant state of a `BrowserSession`. -/
structure MSession where
  sessionId : String
  notebookUrl : String
  createdAt : Nat
  lastActivity : Nat
deriving DecidableEq, Repr

/-- `sessions.get(id)` / `sessions.has(id)`. -/
def findSession (pool : List MSession) (id : String) : Option MSession :=
  pool.find? (fun s => s.sessionId = id)

/-- `sessions.delete(id)`: remove the (unique) entry with that key. -/
def eraseSession (pool : List MSession) (id : String) : List MSession :=
  pool.eraseP (fun s => s.sessionId = id)

/-- The oldest-session search loop of `cleanupOldestSession`
(`session-manager.ts:259-268`): running minimum over `createdAt`, strict `<`,
starting from `Infinity` (modelled by the `none` accumulator). -/
def findOldestAux : List MSession → Option (String × Nat) → Option (String × Nat)
  | [], best => best
  | s :: rest, none => findOldestAux rest (some (s.sessionId, s.createdAt))
  | s :: rest, some (bid, bt) =>
    if s.createdAt < bt then findOldestAux rest (some (s.sessionId, s.createdAt))
    else findOldestAux rest (some (bid, bt))

/-- `cleanupOldestSession` (`session-manager.ts:254-283`): `none` when the
pool is empty (`freed = false`); otherwise close and remove the oldest
session, returning its id and the shrunken pool. -/
def cleanupOldestSession (pool : List MSession) :
    Option (String × List MSession) :=
  if pool.isEmpty then none
  else
    match findOldestAux pool none with
    | none => none
    | some (oldestId, _) => some (oldestId, eraseSession pool oldestId)

/-- Pool-level events of one `getOrCreateSession` call, in program order.
`initAwaited` marks the point where `session.init()` is awaited,
`registered` the `sessions.set(sessionId, session)` call. -/
inductive PoolEvent where
  | closedSession : String → PoolEvent
  | initAwaited : String → PoolEvent
  | registered : String → PoolEvent
deriving DecidableEq, Repr

/-- Result of one `getOrCreateSession` call: the pool afterwards, the outcome
(returned session id, or the thrown error message), and the events in
program order. -/
structure GOCResult where
  pool : List MSession
  outcome : Except String String
  events : List PoolEvent
deriving Repr

/-- The creation tail of `getOrCreateSession` (`session-manager.ts:127-153`):
construct the session, await `session.init()` (`initOk` tells whether it
succeeded), and only then register it in the map. -/
def gocCreate (pool : List MSession) (sessionId targetUrl : String)
    (now : Nat) (initOk : Bool) (evs : List PoolEvent) : GOCResult :=
  let s : MSession := ⟨sessionId, targetUrl, now, now⟩
  if initOk then
    ⟨pool ++ [s], .ok sessionId, evs ++ [.initAwaited sessionId, .registered sessionId]⟩
  else
    ⟨pool, .error "Failed to create session", evs ++ [.initAwaited sessionId]⟩

/-- The capacity check of `getOrCreateSession` (`session-manager.ts:117-125`)
followed by the creation tail: at capacity, evict the oldest session first and
fail when nothing can be freed. -/
def gocCapacity (pool : List MSession) (sessionId targetUrl : String)
    (maxSessions now : Nat) (initOk : Bool) (evs : List PoolEvent) : GOCResult :=
  if maxSessions ≤ pool.length then
    match cleanupOldestSession pool with
    | none =>
      ⟨pool, .error "Max sessions reached and no inactive sessions to clean up", evs⟩
    | some (evictedId, pool') =>
      gocCreate pool' sessionId targetUrl now initOk (evs ++ [.closedSession evictedId])
  else gocCreate pool sessionId targetUrl now initOk evs

/-- The id-resolution step of `getOrCreateSession`
(`session-manager.ts:102-114`): reuse an existing session with a matching
notebook URL (updating its activity), close-and-replace it when the URL
differs, or continue to the capacity check and creation. -/
def gocResolve (pool1 : List MSession) (sessionId targetUrl : String)
    (maxSessions now : Nat) (initOk : Bool) (evs1 : List PoolEvent) : GOCResult :=
  match findSession pool1 sessionId with
  | some s =>
    if s.notebookUrl ≠ targetUrl then
      gocCapacity (eraseSession pool1 sessionId) sessionId targetUrl
        maxSessions now initOk (evs1 ++ [.closedSession sessionId])
    else
      ⟨pool1.map (fun t => if t.sessionId = sessionId then
          { t with lastActivity := now } else t),
        .ok sessionId, evs1⟩
  | none => gocCapacity pool1 sessionId targetUrl maxSessions now initOk evs1

/-- `getOrCreateSession` (`session-manager.ts:69-154`) for an explicitly given
session id.  `modeChange` is `overrideHeadless !== undefined &&
needsHeadlessModeChange(overrideHeadless)`, which closes every session before
anything else; then the id is resolved, the capacity check runs and the
creation tail follows.  `init()` success is the `initOk` input. -/
def getOrCreateSession (pool : List MSession) (sessionId notebookUrl : String)
    (maxSessions now : Nat) (modeChange initOk : Bool) : GOCResult :=
  if trimStr notebookUrl = "" then
    ⟨pool, .error "Notebook URL is required to create a session", []⟩
  else if !startsWithStr (trimStr notebookUrl) "http" then
    ⟨pool, .error "Notebook URL must be an absolute URL", []⟩
  else
    gocResolve (if modeChange then [] else pool) sessionId (trimStr notebookUrl)
      maxSessions now initOk
      (if modeChange then pool.map (fun s => .closedSession s.sessionId) else [])

/-- `closeSession` (`session-manager.ts:166-180`): `false` when the id is
absent; otherwise close that session, delete it and return `true`.  Returns
(result, pool afterwards, ids of sessions closed). -/
def closeSession (pool : List MSession) (sessionId : String) :
    Bool × List MSession × List String :=
  match findSession pool sessionId with
  | none => (false, pool, [])
  | some _ => (true, eraseSession pool sessionId, [sessionId])

/-! ## Credential validation (`notebook-library.ts` / `AuthManager`) -/

/-- A browser cookie as the validation code sees it: `expires` is
`cookie.expires ?? -1`, where `-1` marks a session-scoped cookie. -/
structure MCookie where
  name : String
  expires : Int
deriving DecidableEq, Repr

/-- `CRITICAL_COOKIE_NAMES` (`notebook-library.ts:375-385`). -/
def CRITICAL_COOKIE_NAMES : List String :=
  ["SID", "HSID", "SSID", "APISID", "SAPISID", "OSID", "__Secure-OSID",
   "__Secure-1PSID", "__Secure-3PSID"]

/-- `validateCookiesExpiry` (`notebook-library.ts:548-595`): false when there
are no cookies or no critical cookie; otherwise false exactly when some
critical cookie has a concrete expiry (`≠ -1`) in the past. -/
def validateCookiesExpiry (cookies : List MCookie) (currentTime : Int) : Bool :=
  if cookies.isEmpty then false
  else
    let critical := cookies.filter (fun c => CRITICAL_COOKIE_NAMES.contains c.name)
    if critical.isEmpty then false
    else
      let expired := critical.filter
        (fun c => !(c.expires == -1) && decide (c.expires < currentTime))
      expired.isEmpty

/-- The C6 claim's validity rule, modelled from the spec's words: at least one
critical cookie is present and THAT cookie either carries no expiry or its
expiry is in the future. -/
def claimCookieValid (cookies : List MCookie) (currentTime : Int) : Bool :=
  cookies.any (fun c =>
    CRITICAL_COOKIE_NAMES.contains c.name &&
      (c.expires == -1 || decide (currentTime < c.expires)))

/-- The on-disk auth state as `AuthManager`'s validity checks see it:
whether `state.json` exists, its age in seconds, its path, and the cookie
expiries recorded in it (which the file-age checks never consult). -/
structure AuthState where
  stateFileExists : Bool
  stateFileAgeSeconds : Int
  statePath : String
  cookies : List MCookie
deriving Repr

/-- `getStatePath` (`notebook-library.ts:461-467`). -/
def getStatePath (st : AuthState) : Option String :=
  if st.stateFileExists then some st.statePath else none

/-- `isStateExpired` (`notebook-library.ts:600-616`): file older than 24 hours
(strictly), or missing. -/
def isStateExpired (st : AuthState) : Bool :=
  if st.stateFileExists then decide (st.stateFileAgeSeconds > 24 * 60 * 60)
  else true

/-- `getValidStatePath` (`notebook-library.ts:472-485`). -/
def getValidStatePath (st : AuthState) : Option String :=
  match getStatePath st with
  | none => none
  | some p => if isStateExpired st then none else some p

/-! ## Supporting lemmas -/

/-- `findSession` misses exactly when no pooled session carries the id. -/
theorem findSession_eq_none {pool : List MSession} {id : String} :
    findSession pool id = none ↔ ∀ s ∈ pool, s.sessionId ≠ id := by
  simp [findSession, List.find?_eq_none]

/-- Membership in `eraseSession`, assuming unique session ids (a `Map`
invariant). -/
theorem mem_eraseSession {pool : List MSession} {id : String}
    (hnd : (pool.map (·.sessionId)).Nodup) (s : MSession) :
    s ∈ eraseSession pool id ↔ s ∈ pool ∧ s.sessionId ≠ id := by
  induction pool with
  | nil => simp [eraseSession]
  | cons a rest ih =>
    simp only [List.map_cons, List.nodup_cons] at hnd
    obtain ⟨ha, hrest⟩ := hnd
    by_cases hid : a.sessionId = id
    · have herase : eraseSession (a :: rest) id = rest := by
        simp [eraseSession, List.eraseP_cons, hid]
      rw [herase]
      constructor
      · intro hs
        refine ⟨List.mem_cons_of_mem _ hs, ?_⟩
        intro hcontra
        have hmem : s.sessionId ∈ rest.map (·.sessionId) :=
          List.mem_map_of_mem (·.sessionId) hs
        rw [hcontra, ← hid] at hmem
        exact ha hmem
      · rintro ⟨hs, hne⟩
        rcases List.mem_cons.mp hs with rfl | hs
        · exact absurd hid hne
        · exact hs
    · have herase : eraseSession (a :: rest) id = a :: eraseSession rest id := by
        simp [eraseSession, List.eraseP_cons, hid]
      rw [herase]
      constructor
      · intro hs
        rcases List.mem_cons.mp hs with rfl | hs
        · exact ⟨List.mem_cons_self _ _, hid⟩
        · obtain ⟨h1, h2⟩ := (ih hrest).mp hs
          exact ⟨List.mem_cons_of_mem _ h1, h2⟩
      · rintro ⟨hs, hne⟩
        rcases List.mem_cons.mp hs with rfl | hs
        · exact List.mem_cons_self _ _
        · exact List.mem_cons_of_mem _ ((ih hrest).mpr ⟨hs, hne⟩)

/-- Erasing only removes elements. -/
theorem eraseSession_subset (pool : List MSession) (id : String) :
    ∀ s ∈ eraseSession pool id, s ∈ pool :=
  fun _ hs => (List.eraseP_sublist pool).mem hs

/-- A successful `askOnce` increments the message counter by exactly one. -/
theorem askOnce_ok_messageCount {env : AskAttempt} {mc mc' : Nat} {a : String}
    (h : askOnce env mc = .ok (a, mc')) : mc' = mc + 1 := by
  unfold askOnce at h
  split at h
  · exact absurd h (by simp)
  · split at h
    · exact absurd h (by simp)
    · split at h
      · exact absurd h (by simp)
      · split at h
        · exact absurd h (by simp)
        · simp only [Except.ok.injEq, Prod.mk.injEq] at h
          exact h.2.symm

/-! ## Claim C3 — `ask` recovery cycle -/

/-- **C3, counterexample.**  When the first attempt fails with a
closed-context error and the recovery retry fails with a different error, the
error surfaced to the caller is the RETRY's error, not the original one as
the claim states. -/
theorem ask_surfaces_retry_error :
    (ask ⟨some "Target page has been closed", false, true, none, [], none⟩ none
        ⟨some "Network timeout during navigation", false, true, none, [], none⟩ 7).1
      = .error (.failure "Network timeout during navigation") ∧
    AskError.failure "Network timeout during navigation" ≠
      AskError.failure "Target page has been closed" :=
  ⟨by rfl, by decide⟩

/-- **C3, amended.**  `ask` performs at most one recovery cycle — exactly one
when the first attempt's error matches the closed-context patterns, never two
— and when the retried attempt also fails, the error surfaced to the caller
is the retry's error (not the original). -/
theorem ask_single_recovery :
    (∀ e1 ie e2 mc, (ask e1 ie e2 mc).2.2 ≤ 1) ∧
    (∀ e1 ie e2 mc e, askOnce e1 mc = .error e → closedPattern e.message = true →
      (ask e1 ie e2 mc).2.2 = 1) ∧
    (∀ e1 e2 mc e e2', askOnce e1 mc = .error e → closedPattern e.message = true →
      askOnce e2 mc = .error e2' → (ask e1 none e2 mc).1 = .error e2') := by
  refine ⟨fun e1 ie e2 mc => ?_, fun e1 ie e2 mc e h1 hcl => ?_,
    fun e1 e2 mc e e2' h1 hcl h2 => ?_⟩
  · unfold ask
    cases h1 : askOnce e1 mc with
    | ok v => simp
    | error e =>
      by_cases hcl : closedPattern e.message = true
      · simp only [hcl, if_true]
        cases ie with
        | some i => simp
        | none => cases h2 : askOnce e2 mc with
          | ok v => simp
          | error e2 => simp
      · simp [hcl]
  · unfold ask
    simp only [h1, hcl, if_true]
    cases ie with
    | some i => rfl
    | none => cases h2 : askOnce e2 mc with
      | ok v => simp [h2]
      | error e2 => simp [h2]
  · unfold ask
    simp only [h1, hcl, if_true, h2]

/-- Witness for C3 (amended): concrete double failure surfaces the retry's
error after exactly one recovery cycle. -/
theorem ask_single_recovery_witness :
    (ask ⟨some "Target page has been closed", false, true, none, [], none⟩ none
        ⟨some "boom", false, true, none, [], none⟩ 0).1 = .error (.failure "boom") :=
  ask_single_recovery.2.2 _ _ 0 (.failure "Target page has been closed")
    (.failure "boom") rfl (by decide) rfl

/-! ## Claim C8 — `messageCount` accounting -/

/-- **C8.**  A successful `ask` (directly or through its one recovery retry)
increments `messageCount` by exactly one; a failed `ask` — timeout, rate
limit, authentication failure, driver error, failed recovery — leaves
`messageCount` unchanged. -/
theorem ask_messageCount (e1 : AskAttempt) (ie : Option String)
    (e2 : AskAttempt) (mc : Nat) :
    (∀ a, (ask e1 ie e2 mc).1 = .ok a → (ask e1 ie e2 mc).2.1 = mc + 1) ∧
    (∀ e, (ask e1 ie e2 mc).1 = .error e → (ask e1 ie e2 mc).2.1 = mc) := by
  unfold ask
  cases h1 : askOnce e1 mc with
  | ok v =>
    obtain ⟨a', mc'⟩ := v
    have := askOnce_ok_messageCount h1
    exact ⟨fun a _ => by simpa using this, fun e he => absurd he (by simp)⟩
  | error e =>
    by_cases hcl : closedPattern e.message = true
    · simp only [hcl, if_true]
      cases ie with
      | some i => exact ⟨fun a ha => absurd ha (by simp), fun _ _ => by simp⟩
      | none =>
        cases h2 : askOnce e2 mc with
        | ok v =>
          obtain ⟨a', mc'⟩ := v
          have := askOnce_ok_messageCount h2
          exact ⟨fun a _ => by simpa using this, fun e' he => absurd he (by simp)⟩
        | error e2 => exact ⟨fun a ha => absurd ha (by simp), fun _ _ => by simp⟩
    · simp only [hcl, if_false, Bool.false_eq_true]
      exact ⟨fun a ha => absurd ha (by simp), fun _ _ => by simp⟩

/-- Witness for C8: a concrete successful ask moves the counter from 5 to 6,
and a concrete failed ask (timeout) leaves it at 5. -/
theorem ask_messageCount_witness :
    (ask ⟨none, false, true, some "answer", [], none⟩ none
        ⟨none, false, true, some "answer", [], none⟩ 5).2.1 = 6 ∧
    (ask ⟨none, false, true, none, [], none⟩ none
        ⟨none, false, true, none, [], none⟩ 5).2.1 = 5 :=
  ⟨(ask_messageCount _ none _ 5).1 "answer" rfl,
   (ask_messageCount _ none _ 5).2
     (.failure "Timeout waiting for response from NotebookLM") rfl⟩

/-! ## Claim C9 — rate-limit detection after successful extraction -/

/-- **C9.**  Whenever an answer was successfully extracted and one of the
scanned page regions contains the text "rate limit" (case-insensitive), `ask`
raises `RateLimitError` instead of returning the extracted answer, and the
message counter is not incremented. -/
theorem ask_rateLimitError (e1 : AskAttempt) (ie : Option String)
    (e2 : AskAttempt) (mc : Nat) (a t : String)
    (hdrv : e1.driverError = none)
    (hauth : (e1.reAuthNeeded && !e1.reAuthOk) = false)
    (hans : e1.answer = some a)
    (hmem : t ∈ e1.errorRegions)
    (hkw : containsSub (toLowerStr t) "rate limit" = true) :
    (ask e1 ie e2 mc).1 =
      .error (.rateLimit "NotebookLM rate limit reached (50 queries/day for free accounts)") ∧
    (ask e1 ie e2 mc).2.1 = mc := by
  have hhas : hasRateLimitKeyword t = true := by
    unfold hasRateLimitKeyword
    exact List.any_eq_true.mpr ⟨"rate limit", by decide, hkw⟩
  have hdet : detectRateLimitError e1.errorRegions e1.disabledInputParentText = true := by
    unfold detectRateLimitError
    rw [if_pos (List.any_eq_true.mpr ⟨t, hmem, hhas⟩)]
  have honce : askOnce e1 mc =
      .error (.rateLimit "NotebookLM rate limit reached (50 queries/day for free accounts)") := by
    unfold askOnce
    simp only [hdrv, hans, hauth, Bool.false_eq_true, if_false, hdet, if_true]
  have hnocl : closedPattern
      (AskError.rateLimit
        "NotebookLM rate limit reached (50 queries/day for free accounts)").message
      = false := by decide
  unfold ask
  simp only [honce, hnocl, Bool.false_eq_true, if_false]
  exact ⟨trivial, trivial⟩

/-- Witness for C9: a page showing "Error: Rate limit exceeded" in an alert
region turns a successfully-extracted answer into `RateLimitError`. -/
theorem ask_rateLimitError_witness :
    (ask ⟨none, false, true, some "some answer", ["Error: Rate limit exceeded"], none⟩
        none ⟨none, false, true, none, [], none⟩ 4).1 =
      .error (.rateLimit "NotebookLM rate limit reached (50 queries/day for free accounts)") ∧
    (ask ⟨none, false, true, some "some answer", ["Error: Rate limit exceeded"], none⟩
        none ⟨none, false, true, none, [], none⟩ 4).2.1 = 4 :=
  ask_rateLimitError _ none _ 4 "some answer" "Error: Rate limit exceeded"
    rfl rfl rfl (by decide) (by decide)

/-! ## Claim C1 — three stable polls before returning -/

/-- The poll loop returns at a poll strictly later than the polls already
counted. -/
theorem waitAux_lt {sq : String} :
    ∀ (polls : List Poll) (last : Option String) (stable count : Nat)
      (known : List Int) (a : String) (i : Nat),
      waitAux sq polls last stable count known = some (a, i) → count < i := by
  intro polls
  induction polls with
  | nil =>
    intro last stable count known a i h
    exact absurd h (by simp [waitAux])
  | cons p rest ih =>
    intro last stable count known a i h
    cases p with
    | thinking =>
      have h' : waitAux sq rest last stable (count + 1) known = some (a, i) := h
      have := ih last stable (count + 1) known a i h'
      omega
    | extracted o =>
      cases o with
      | none =>
        have h' : waitAux sq rest last stable (count + 1) known = some (a, i) := h
        have := ih last stable (count + 1) known a i h'
        omega
      | some s =>
        unfold waitAux at h
        dsimp only at h
        by_cases h1 : trimStr s = ""
        · rw [if_pos h1] at h
          have := ih last stable (count + 1) known a i h
          omega
        · rw [if_neg h1] at h
          by_cases h2 : toLowerStr (trimStr s) = sq
          · rw [if_pos h2] at h
            have := ih last stable (count + 1) _ a i h
            omega
          · rw [if_neg h2] at h
            by_cases h3 : some (trimStr s) = last
            · rw [if_pos h3] at h
              by_cases h4 : 3 ≤ stable + 1
              · rw [if_pos h4] at h
                simp only [Option.some.injEq, Prod.mk.injEq] at h
                omega
              · rw [if_neg h4] at h
                have := ih last (stable + 1) (count + 1) known a i h
                omega
            · rw [if_neg h3] at h
              have := ih (some (trimStr s)) 1 (count + 1) known a i h
              omega

/-- A suffix stays a suffix after prepending on the left. -/
theorem isSuffix_append_left {α : Type} {l1 l2 : List α} (l : List α)
    (h : l1 <:+ l2) : l1 <:+ l ++ l2 := by
  obtain ⟨w, hw⟩ := h
  exact ⟨l ++ w, by rw [List.append_assoc, hw]⟩

/-- Invariant of the poll loop: when it returns `(a, i)`, the candidate `a`
was the effective candidate of the last three candidate-bearing polls up to
poll `i` — the state `(last, stable)` standing for `stable` trailing
observations of `last`. -/
theorem waitAux_suffix {sq : String} :
    ∀ (polls : List Poll) (last : Option String) (stable count : Nat)
      (known : List Int) (a : String) (i : Nat),
      waitAux sq polls last stable count known = some (a, i) →
      [a, a, a] <:+
        (effsState last stable ++ ((polls.take (i - count)).filterMap (effCand sq))) := by
  intro polls
  induction polls with
  | nil =>
    intro last stable count known a i h
    exact absurd h (by simp [waitAux])
  | cons p rest ih =>
    intro last stable count known a i h
    have hlt : count < i := waitAux_lt (p :: rest) last stable count known a i h
    have htake : (p :: rest).take (i - count) = p :: rest.take (i - count - 1) := by
      obtain ⟨k, hk⟩ : ∃ k, i - count = k + 1 := ⟨i - count - 1, by omega⟩
      rw [hk, List.take_succ_cons]
      simp
    cases p with
    | thinking =>
      have h' : waitAux sq rest last stable (count + 1) known = some (a, i) := h
      have hih := ih last stable (count + 1) known a i h'
      rw [htake, List.filterMap_cons]
      have heff : effCand sq Poll.thinking = none := rfl
      rw [heff]
      have harith : i - (count + 1) = i - count - 1 := by omega
      rw [harith] at hih
      exact hih
    | extracted o =>
      cases o with
      | none =>
        have h' : waitAux sq rest last stable (count + 1) known = some (a, i) := h
        have hih := ih last stable (count + 1) known a i h'
        rw [htake, List.filterMap_cons]
        have heff : effCand sq (Poll.extracted none) = none := rfl
        rw [heff]
        have harith : i - (count + 1) = i - count - 1 := by omega
        rw [harith] at hih
        exact hih
      | some s =>
        unfold waitAux at h
        dsimp only at h
        by_cases h1 : trimStr s = ""
        · rw [if_pos h1] at h
          have hih := ih last stable (count + 1) known a i h
          rw [htake, List.filterMap_cons]
          have heff : effCand sq (Poll.extracted (some s)) = none := by
            simp [effCand, h1]
          rw [heff]
          have harith : i - (count + 1) = i - count - 1 := by omega
          rw [harith] at hih
          exact hih
        · rw [if_neg h1] at h
          by_cases h2 : toLowerStr (trimStr s) = sq
          · rw [if_pos h2] at h
            have hih := ih last stable (count + 1) _ a i h
            rw [htake, List.filterMap_cons]
            have heff : effCand sq (Poll.extracted (some s)) = none := by
              simp [effCand, h1, h2]
            rw [heff]
            have harith : i - (count + 1) = i - count - 1 := by omega
            rw [harith] at hih
            exact hih
          · have heff : effCand sq (Poll.extracted (some s)) = some (trimStr s) := by
              simp [effCand, h1, h2]
            rw [if_neg h2] at h
            by_cases h3 : some (trimStr s) = last
            · rw [if_pos h3] at h
              by_cases h4 : 3 ≤ stable + 1
              · rw [if_pos h4] at h
                simp only [Option.some.injEq, Prod.mk.injEq] at h
                obtain ⟨ha, hi⟩ := h
                subst ha
                rw [htake]
                have h0 : i - count - 1 = 0 := by omega
                rw [h0, List.take_zero]
                rw [← h3]
                show [trimStr s, trimStr s, trimStr s] <:+
                  List.replicate stable (trimStr s) ++
                    List.filterMap (effCand sq) [Poll.extracted (some s)]
                have hfm : List.filterMap (effCand sq) [Poll.extracted (some s)]
                    = [trimStr s] := by
                  simp [List.filterMap_cons, heff]
                rw [hfm, ← List.replicate_succ']
                refine ⟨List.replicate (stable + 1 - 3) (trimStr s), ?_⟩
                have hsum : (stable + 1 - 3) + 3 = stable + 1 := by omega
                calc List.replicate (stable + 1 - 3) (trimStr s)
                      ++ [trimStr s, trimStr s, trimStr s]
                    = List.replicate (stable + 1 - 3) (trimStr s)
                      ++ List.replicate 3 (trimStr s) := rfl
                  _ = List.replicate ((stable + 1 - 3) + 3) (trimStr s) :=
                      (List.replicate_add _ _ _).symm
                  _ = List.replicate (stable + 1) (trimStr s) := by rw [hsum]
              · rw [if_neg h4] at h
                have hih := ih last (stable + 1) (count + 1) known a i h
                rw [htake, List.filterMap_cons, heff]
                rw [← h3] at hih ⊢
                have harith : i - (count + 1) = i - count - 1 := by omega
                rw [harith] at hih
                show [a, a, a] <:+ List.replicate stable (trimStr s)
                  ++ (trimStr s :: (rest.take (i - count - 1)).filterMap (effCand sq))
                rw [List.append_cons, ← List.replicate_succ']
                exact hih
            · rw [if_neg h3] at h
              have hih := ih (some (trimStr s)) 1 (count + 1) known a i h
              rw [htake, List.filterMap_cons, heff]
              have harith : i - (count + 1) = i - count - 1 := by omega
              rw [harith] at hih
              exact isSuffix_append_left _ hih

/-- **C1.**  The completion detector returns a candidate only once the
stability counter reaches 3: whenever it returns `(a, i)`, the last three
candidate-bearing polls up to and including poll `i` all observed exactly
`a`.  A candidate that changes on poll 3 after 2 identical polls is not
returned (the three-poll run times out), and the example sequence `"Hel"`,
`"Hello"`, `"Hello world"` ×3 returns `"Hello world"` at the 5th poll. -/
theorem waitForLatestAnswer_three_stable_polls :
    (∀ (question : String) (ignoreTexts : List String) (polls : List Poll)
      (a : String) (i : Nat),
      waitForLatestAnswer question ignoreTexts polls = some (a, i) →
      [a, a, a] <:+
        ((polls.take i).filterMap (effCand (toLowerStr (trimStr question))))) ∧
    (waitForLatestAnswer "" []
      [.extracted (some "Hel"), .extracted (some "Hello"),
       .extracted (some "Hello world"), .extracted (some "Hello world"),
       .extracted (some "Hello world")] = some ("Hello world", 5)) ∧
    (waitForLatestAnswer "" []
      [.extracted (some "Hel"), .extracted (some "Hel"),
       .extracted (some "Hello world")] = none) := by
  refine ⟨?_, by rfl, by rfl⟩
  intro question ignoreTexts polls a i h
  have h' : waitAux (toLowerStr (trimStr question)) polls none 0 0
      (ignoreTexts.foldl (fun acc t => if trimStr t = "" then acc
        else insertHash (hashString (trimStr t)) acc) []) = some (a, i) := h
  have hsuf := waitAux_suffix polls none 0 0 _ a i h'
  simpa using hsuf

/-- Witness for C1: the 5-poll example returns at poll 5 and the last three
effective candidates up to that poll are all `"Hello world"`. -/
theorem waitForLatestAnswer_three_stable_polls_witness :
    ["Hello world", "Hello world", "Hello world"] <:+
      (([Poll.extracted (some "Hel"), Poll.extracted (some "Hello"),
        Poll.extracted (some "Hello world"), Poll.extracted (some "Hello world"),
        Poll.extracted (some "Hello world")].take 5).filterMap
        (effCand (toLowerStr (trimStr "")))) :=
  waitForLatestAnswer_three_stable_polls.1 "" [] _ "Hello world" 5 (by rfl)

/-! ## Claim C2 — first-unseen-hash extraction -/

/-- `find?` over an append: the left list wins. -/
theorem find?_append_first {α : Type} (l1 l2 : List α) (p : α → Bool) :
    (l1 ++ l2).find? p
      = match l1.find? p with
        | some a => some a
        | none => l2.find? p := by
  induction l1 with
  | nil => simp
  | cons a rest ih =>
    by_cases h : p a
    · simp [List.find?_cons, h]
    · simp only [List.cons_append, List.find?_cons, h]
      simpa [h] using ih

/-- The fallback-selector element scan is the first-unseen-hash scan. -/
theorem firstNewElems_eq_spec (l : List String) (known : List Int) :
    firstNewElems l known = specFirstUnseen l known := by
  induction l with
  | nil => rfl
  | cons t rest ih =>
    unfold firstNewElems specFirstUnseen
    rw [List.map_cons, List.find?_cons]
    by_cases h1 : trimStr t = ""
    · rw [if_pos h1]
      have hp : (trimStr t ≠ "" && !known.contains (hashString (trimStr t))) = false := by
        simp [h1]
      rw [hp]
      exact ih
    · rw [if_neg h1]
      by_cases h2 : known.contains (hashString (trimStr t)) = true
      · rw [if_pos h2]
        have hmem : hashString (trimStr t) ∈ known := by simpa using h2
        have hp : (trimStr t ≠ "" && !known.contains (hashString (trimStr t))) = false := by
          simp [hmem]
        rw [hp]
        exact ih
      · rw [if_neg h2]
        have hnm : hashString (trimStr t) ∉ known := by simpa using h2
        have hp : (trimStr t ≠ "" && !known.contains (hashString (trimStr t))) = true := by
          simp [h1, hnm]
        rw [hp]

/-- The primary-container scan is the first-unseen-hash scan over the
containers that do have a `.message-text-content` child. -/
theorem firstNewPrimary_eq_spec (cs : List (Option String)) (known : List Int) :
    firstNewPrimary cs known = specFirstUnseen (cs.filterMap id) known := by
  induction cs with
  | nil => rfl
  | cons o rest ih =>
    cases o with
    | none =>
      have : (List.filterMap id (none :: rest) : List String) = rest.filterMap id := by
        simp
      rw [show firstNewPrimary (none :: rest) known = firstNewPrimary rest known from rfl,
        this]
      exact ih
    | some t =>
      have hfm : (List.filterMap id (some t :: rest) : List String)
          = t :: rest.filterMap id := by simp
      rw [hfm]
      unfold firstNewPrimary specFirstUnseen
      rw [List.map_cons, List.find?_cons]
      by_cases h1 : trimStr t = ""
      · rw [if_pos h1]
        have hp : (trimStr t ≠ "" && !known.contains (hashString (trimStr t))) = false := by
          simp [h1]
        rw [hp]
        exact (ih.trans rfl)
      · rw [if_neg h1]
        by_cases h2 : known.contains (hashString (trimStr t)) = true
        · rw [if_pos h2]
          have hmem : hashString (trimStr t) ∈ known := by simpa using h2
          have hp : (trimStr t ≠ "" && !known.contains (hashString (trimStr t))) = false := by
            simp [hmem]
          rw [hp]
          exact (ih.trans rfl)
        · rw [if_neg h2]
          have hnm : hashString (trimStr t) ∉ known := by simpa using h2
          have hp : (trimStr t ≠ "" && !known.contains (hashString (trimStr t))) = true := by
            simp [h1, hnm]
          rw [hp]

/-- The fallback cascade over all selectors is the first-unseen-hash scan over
the concatenation of their element lists, in priority-then-document order. -/
theorem firstNewFallback_eq_spec (sels : List (List String)) (known : List Int) :
    firstNewFallback sels known = specFirstUnseen sels.flatten known := by
  induction sels with
  | nil => rfl
  | cons elems rest ih =>
    unfold firstNewFallback
    have hjoin : (elems :: rest).flatten = elems ++ rest.flatten := rfl
    rw [hjoin]
    unfold specFirstUnseen
    rw [List.map_append, find?_append_first]
    rw [firstNewElems_eq_spec elems known]
    unfold specFirstUnseen
    cases (elems.map trimStr).find?
        (fun t => t ≠ "" && !known.contains (hashString t)) with
    | none => exact ih
    | some t => rfl

/-- **C2, counterexample.**  On the final raw-DOM-scan path the
first-unseen-hash rule does NOT hold: with candidates `["A", "B"]` in scan
order and the hash of `"B"` already known, `extractLatestText` returns `"B"`
— the LAST candidate, whose hash is known — although the first-unseen-hash
rule mandates `"A"`. -/
theorem extractLatestText_rawScan_ignores_hashes :
    extractLatestText ⟨true, [], [], ["A", "B"]⟩ [hashString "B"] = some "B" ∧
    [hashString "B"].contains (hashString "B") = true ∧
    [hashString "B"].contains (hashString "A") = false ∧
    specFirstUnseen ["A", "B"] [hashString "B"] = some "A" := by
  exact ⟨by decide, by decide, by decide, by decide⟩

/-- **C2, amended.**  The first-unseen-hash rule (document order) holds on the
primary-container path — provided the container count exceeds the known-hash
count, otherwise the primary path returns nothing — and on the prioritized
fallback-selector cascade; the final raw DOM scan instead returns the LAST
visible non-blank candidate without consulting the known hashes. -/
theorem extractLatestText_characterization :
    (∀ (page : PageModel) (known : List Int),
      page.primaryFailure = false →
      known.length < page.primaryContainers.length →
      extractLatestText page known
        = specFirstUnseen (page.primaryContainers.filterMap id) known) ∧
    (∀ (page : PageModel) (known : List Int),
      page.primaryFailure = false →
      page.primaryContainers.length ≤ known.length →
      extractLatestText page known = none) ∧
    (∀ (page : PageModel) (known : List Int),
      page.primaryFailure = true →
      extractLatestText page known
        = match specFirstUnseen page.fallbackElements.flatten known with
          | some t => some t
          | none => rawScan page.rawCandidates) := by
  refine ⟨fun page known hpf hlen => ?_, fun page known hpf hlen => ?_,
    fun page known hpf => ?_⟩
  · unfold extractLatestText
    rw [hpf]
    rw [if_pos (show (!false) = true from rfl)]
    rw [if_neg (by omega)]
    exact firstNewPrimary_eq_spec _ _
  · unfold extractLatestText
    rw [hpf]
    rw [if_pos (show (!false) = true from rfl)]
    rw [if_pos hlen]
  · unfold extractLatestText
    rw [hpf]
    rw [if_neg (show ¬((!true) = true) from by simp)]
    rw [firstNewFallback_eq_spec]
    cases specFirstUnseen page.fallbackElements.flatten known with
    | none =>
      cases hraw : rawScan page.rawCandidates with
      | none => rfl
      | some t => rfl
    | some t => rfl

/-- Witness for C2 (amended): on a concrete primary-path page the result is
the first container text with an unseen hash. -/
theorem extractLatestText_characterization_witness :
    extractLatestText ⟨false, [some "first", some "second"], [], []⟩ []
      = specFirstUnseen [ "first", "second"] [] ∧
    extractLatestText ⟨false, [some "first", some "second"], [], []⟩ []
      = some "first" :=
  ⟨extractLatestText_characterization.1 ⟨false, [some "first", some "second"], [], []⟩
      [] rfl (by decide), by decide⟩

/-! ## Claim C6 — `validateCookiesExpiry` -/

/-- **C6, counterexample.**  The claim reads `validateCookiesExpiry` as true
exactly when SOME critical cookie is present with a valid (absent or future)
expiry.  With a valid `SID` alongside an expired `HSID`, that reading predicts
`true`, but the code returns `false`: it rejects the whole set as soon as ANY
critical cookie has an expiry in the past. -/
theorem validateCookiesExpiry_existential_refuted :
    validateCookiesExpiry [⟨"SID", 999999⟩, ⟨"HSID", 10⟩] 1000 = false ∧
    claimCookieValid [⟨"SID", 999999⟩, ⟨"HSID", 10⟩] 1000 = true ∧
    validateCookiesExpiry [⟨"SID", 999999⟩, ⟨"HSID", 10⟩] 1000 ≠
      claimCookieValid [⟨"SID", 999999⟩, ⟨"HSID", 10⟩] 1000 := by
  refine ⟨by decide, by decide, by decide⟩

/-- **C6, amended.**  `validateCookiesExpiry` returns true exactly when at
least one critical cookie is present and EVERY critical cookie present either
carries no expiry (`expires = -1`, session-scoped, treated as valid) or an
expiry not in the past. -/
theorem validateCookiesExpiry_characterization (cookies : List MCookie) (now : Int) :
    validateCookiesExpiry cookies now = true ↔
      ((∃ c ∈ cookies, c.name ∈ CRITICAL_COOKIE_NAMES) ∧
        ∀ c ∈ cookies, c.name ∈ CRITICAL_COOKIE_NAMES →
          (c.expires = -1 ∨ ¬(c.expires < now))) := by
  unfold validateCookiesExpiry
  by_cases hnil : cookies = []
  · subst hnil
    simp
  · have hne : cookies.isEmpty = false := by
      rcases cookies with _ | ⟨c, rest⟩
      · exact absurd rfl hnil
      · rfl
    rw [if_neg (by simp [hne])]
    by_cases hcrit :
        cookies.filter (fun c => CRITICAL_COOKIE_NAMES.contains c.name) = []
    · rw [if_pos (List.isEmpty_iff.mpr hcrit)]
      have hall : ∀ c ∈ cookies, c.name ∉ CRITICAL_COOKIE_NAMES := by
        intro c hc
        have := List.filter_eq_nil_iff.mp hcrit c hc
        simpa using this
      constructor
      · intro h
        exact absurd h (by simp)
      · rintro ⟨⟨c, hc, hcc⟩, -⟩
        exact (hall c hc hcc).elim
    · rw [if_neg (fun h => hcrit (List.isEmpty_iff.mp h))]
      have hex : ∃ c ∈ cookies, c.name ∈ CRITICAL_COOKIE_NAMES := by
        rcases List.exists_mem_of_ne_nil _ hcrit with ⟨c, hc⟩
        refine ⟨c, List.mem_of_mem_filter hc, ?_⟩
        have := List.of_mem_filter hc
        simpa using this
      rw [List.isEmpty_iff, List.filter_eq_nil_iff]
      constructor
      · intro hq
        refine ⟨hex, fun c hc hcc => ?_⟩
        have hmemf : c ∈ cookies.filter
            (fun c => CRITICAL_COOKIE_NAMES.contains c.name) :=
          List.mem_filter.mpr ⟨hc, by simpa using hcc⟩
        have := hq c hmemf
        by_cases hsess : c.expires = -1
        · exact Or.inl hsess
        · refine Or.inr fun hlt => ?_
          exact this (by simp [hsess, hlt])
      · rintro ⟨-, hval⟩ c hcf
        obtain ⟨hc, hcc⟩ := List.mem_filter.mp hcf
        have := hval c hc (by simpa using hcc)
        rcases this with h | h
        · simp [h]
        · simp [h]

/-! ## Claim C7 — snapshot freshness ceiling -/

/-- **C7.**  A snapshot file older than the 24-hour freshness ceiling makes
`getValidStatePath` return `null`, regardless of the cookie expiries recorded
in the snapshot: the file-age check (`isStateExpired`) is independent of
cookie expiry. -/
theorem getValidStatePath_stale_none (st : AuthState) (now : Int)
    (hage : 24 * 60 * 60 < st.stateFileAgeSeconds)
    (_hfuture : ∀ c ∈ st.cookies, now < c.expires) :
    getValidStatePath st = none := by
  unfold getValidStatePath getStatePath isStateExpired
  by_cases hex : st.stateFileExists
  · simp only [hex, if_true, if_pos]
    rw [if_pos]
    simp only [decide_eq_true_eq]
    omega
  · simp [hex]

/-- Witness for C7: a 25-hour-old snapshot whose only recorded cookie expires
far in the future is still rejected. -/
theorem getValidStatePath_stale_none_witness :
    getValidStatePath ⟨true, 90000, "state.json", [⟨"SID", 999999⟩]⟩ = none :=
  getValidStatePath_stale_none _ 0 (by norm_num) (by decide)

/-- The running-minimum loop, started from a candidate, returns a pair that is
either the candidate or comes from the list, is bounded by the candidate, and
bounds the whole list. -/
theorem findOldestAux_spec (l : List MSession) :
    ∀ (bid : String) (bt : Nat), ∃ rid rt,
      findOldestAux l (some (bid, bt)) = some (rid, rt) ∧ rt ≤ bt ∧
      ((rid = bid ∧ rt = bt) ∨ ∃ s ∈ l, s.sessionId = rid ∧ s.createdAt = rt) ∧
      ∀ s ∈ l, rt ≤ s.createdAt := by
  induction l with
  | nil =>
    intro bid bt
    exact ⟨bid, bt, rfl, le_refl _, Or.inl ⟨rfl, rfl⟩, by simp⟩
  | cons a rest ih =>
    intro bid bt
    by_cases h : a.createdAt < bt
    · obtain ⟨rid, rt, heq, hle, hsrc, hall⟩ := ih a.sessionId a.createdAt
      refine ⟨rid, rt, ?_, by omega, ?_, ?_⟩
      · simpa [findOldestAux, h] using heq
      · rcases hsrc with ⟨h1, h2⟩ | ⟨s, hs, h1, h2⟩
        · exact Or.inr ⟨a, List.mem_cons_self _ _, h1.symm, h2.symm⟩
        · exact Or.inr ⟨s, List.mem_cons_of_mem _ hs, h1, h2⟩
      · intro s hs
        rcases List.mem_cons.mp hs with rfl | hs
        · exact hle
        · exact hall s hs
    · obtain ⟨rid, rt, heq, hle, hsrc, hall⟩ := ih bid bt
      refine ⟨rid, rt, ?_, hle, ?_, ?_⟩
      · simpa [findOldestAux, h] using heq
      · rcases hsrc with hl | ⟨s, hs, h1, h2⟩
        · exact Or.inl hl
        · exact Or.inr ⟨s, List.mem_cons_of_mem _ hs, h1, h2⟩
      · intro s hs
        rcases List.mem_cons.mp hs with rfl | hs
        · omega
        · exact hall s hs

/-- A non-empty pool has an oldest session, and the search loop finds it. -/
theorem findOldest_min (pool : List MSession) (hne : pool ≠ []) :
    ∃ s ∈ pool, findOldestAux pool none = some (s.sessionId, s.createdAt) ∧
      ∀ t ∈ pool, s.createdAt ≤ t.createdAt := by
  rcases pool with _ | ⟨a, rest⟩
  · exact absurd rfl hne
  · obtain ⟨rid, rt, heq, hle, hsrc, hall⟩ := findOldestAux_spec rest a.sessionId a.createdAt
    have hstep : findOldestAux (a :: rest) none
        = findOldestAux rest (some (a.sessionId, a.createdAt)) := rfl
    rcases hsrc with ⟨h1, h2⟩ | ⟨s, hs, h1, h2⟩
    · refine ⟨a, List.mem_cons_self _ _, ?_, ?_⟩
      · rw [hstep, heq, h1, h2]
      · intro t ht
        rcases List.mem_cons.mp ht with rfl | ht
        · exact le_refl _
        · exact h2 ▸ hall t ht
    · refine ⟨s, List.mem_cons_of_mem _ hs, ?_, ?_⟩
      · rw [hstep, heq, h1, h2]
      · intro t ht
        rcases List.mem_cons.mp ht with rfl | ht
        · exact h2 ▸ (le_trans hle (by omega))
        · exact h2 ▸ hall t ht

/-! ## Claim C4 — eviction of the oldest session at capacity -/

/-- **C4.**  At capacity, `getOrCreateSession` for a fresh id closes and
removes the session with the (unique) smallest creation timestamp before
creating the new one; in the concrete scenario `maxSessions = 2` with A
(t=0) and B (t=1), asking for C closes A, and afterwards exactly B and C are
active. -/
theorem getOrCreateSession_evicts_oldest :
    (∀ (pool : List MSession) (sessionId notebookUrl : String)
      (maxSessions now : Nat) (initOk : Bool) (m : MSession),
      trimStr notebookUrl ≠ "" →
      startsWithStr (trimStr notebookUrl) "http" = true →
      findSession pool sessionId = none →
      maxSessions ≤ pool.length →
      m ∈ pool →
      (∀ t ∈ pool, t ≠ m → m.createdAt < t.createdAt) →
      (getOrCreateSession pool sessionId notebookUrl maxSessions now false initOk).events.head?
          = some (.closedSession m.sessionId) ∧
      (initOk = true →
        (getOrCreateSession pool sessionId notebookUrl maxSessions now false initOk).pool
            = eraseSession pool m.sessionId ++ [⟨sessionId, trimStr notebookUrl, now, now⟩] ∧
        (getOrCreateSession pool sessionId notebookUrl maxSessions now false initOk).outcome
            = .ok sessionId ∧
        (getOrCreateSession pool sessionId notebookUrl maxSessions now false initOk).events
            = [.closedSession m.sessionId, .initAwaited sessionId,
               .registered sessionId])) ∧
    ((getOrCreateSession [⟨"A", "https://nb/x", 0, 0⟩, ⟨"B", "https://nb/x", 1, 1⟩]
        "C" "https://nb/x" 2 5 false true).pool.map (fun s => s.sessionId)
        = ["B", "C"] ∧
      (getOrCreateSession [⟨"A", "https://nb/x", 0, 0⟩, ⟨"B", "https://nb/x", 1, 1⟩]
        "C" "https://nb/x" 2 5 false true).events.head?
        = some (.closedSession "A")) := by
  constructor
  · intro pool sessionId notebookUrl maxSessions now initOk m hu1 hu2 hfresh hcap hmem hmin
    have hne : pool ≠ [] := by
      intro h
      rw [h] at hmem
      exact absurd hmem (by simp)
    obtain ⟨s, hsmem, heq, hminle⟩ := findOldest_min pool hne
    have hsm : s = m := by
      by_contra hne2
      have h1 := hmin s hsmem hne2
      have h2 := hminle m hmem
      omega
    subst hsm
    have hempty : pool.isEmpty = false := by
      rcases pool with _ | ⟨a, rest⟩
      · exact absurd rfl hne
      · rfl
    have hclean : cleanupOldestSession pool
        = some (s.sessionId, eraseSession pool s.sessionId) := by
      unfold cleanupOldestSession
      rw [if_neg (by simp [hempty]), heq]
    unfold getOrCreateSession gocResolve
    rw [if_neg hu1, if_neg (by simp [hu2])]
    simp only [Bool.false_eq_true, if_false, hfresh]
    unfold gocCapacity
    rw [if_pos hcap, hclean]
    cases initOk
    · exact ⟨rfl, fun h => absurd h (by simp)⟩
    · exact ⟨rfl, fun _ => ⟨rfl, rfl, rfl⟩⟩
  · constructor
    · rfl
    · rfl

/-- Witness for C4: the A/B/C scenario through the general statement — the
evicted session is A, the oldest. -/
theorem getOrCreateSession_evicts_oldest_witness :
    (getOrCreateSession [⟨"A", "https://nb/x", 0, 0⟩, ⟨"B", "https://nb/x", 1, 1⟩]
        "C" "https://nb/x" 2 5 false true).events.head?
      = some (.closedSession "A") :=
  (getOrCreateSession_evicts_oldest.1
    [⟨"A", "https://nb/x", 0, 0⟩, ⟨"B", "https://nb/x", 1, 1⟩] "C" "https://nb/x"
    2 5 true ⟨"A", "https://nb/x", 0, 0⟩ (by decide) (by decide) (by decide)
    (by decide) (by decide) (by decide)).1

/-! ## Claim C5 — registration order relative to `init()` -/

/-- Whether a pool event is a session closure. -/
def isClosedEvent : PoolEvent → Bool
  | .closedSession _ => true
  | _ => false

/-- In the creation tail, a registration event can only arise with
`initOk = true`, names the created session, and sits right after the awaited
`init()` at the very end of the event list. -/
theorem gocCreate_registered {pool : List MSession} {sid url : String}
    {now : Nat} {initOk : Bool} {evs : List PoolEvent}
    (hcl : ∀ e ∈ evs, isClosedEvent e = true) {x : String}
    (hx : PoolEvent.registered x ∈ (gocCreate pool sid url now initOk evs).events) :
    x = sid ∧ (gocCreate pool sid url now initOk evs).events
      = evs ++ [.initAwaited sid, .registered sid] := by
  cases initOk
  · have hx' : PoolEvent.registered x ∈ evs ++ [PoolEvent.initAwaited sid] := hx
    rcases List.mem_append.mp hx' with h | h
    · exact absurd (hcl _ h) (by simp [isClosedEvent])
    · exact absurd (List.mem_singleton.mp h) (by simp)
  · have hx' : PoolEvent.registered x
        ∈ evs ++ [PoolEvent.initAwaited sid, PoolEvent.registered sid] := hx
    rcases List.mem_append.mp hx' with h | h
    · exact absurd (hcl _ h) (by simp [isClosedEvent])
    · rcases List.mem_cons.mp h with h | h
      · exact absurd h (by simp)
      · have hxs : x = sid := by
          have := List.mem_singleton.mp h
          injection this
        exact ⟨hxs, rfl⟩

/-- Same property one level up, through the capacity check. -/
theorem gocCapacity_registered {pool : List MSession} {sid url : String}
    {maxSessions now : Nat} {initOk : Bool} {evs : List PoolEvent}
    (hcl : ∀ e ∈ evs, isClosedEvent e = true) {x : String}
    (hx : PoolEvent.registered x ∈
      (gocCapacity pool sid url maxSessions now initOk evs).events) :
    x = sid ∧ ∃ pre, (gocCapacity pool sid url maxSessions now initOk evs).events
      = pre ++ [.initAwaited sid, .registered sid] := by
  unfold gocCapacity at hx ⊢
  by_cases hcap : maxSessions ≤ pool.length
  · rw [if_pos hcap] at hx ⊢
    cases hcle : cleanupOldestSession pool with
    | none =>
      rw [hcle] at hx
      exact absurd (hcl _ hx) (by simp [isClosedEvent])
    | some p =>
      obtain ⟨evicted, pool'⟩ := p
      rw [hcle] at hx
      have hcl' : ∀ e ∈ evs ++ [PoolEvent.closedSession evicted],
          isClosedEvent e = true := by
        intro e he
        rcases List.mem_append.mp he with h | h
        · exact hcl e h
        · simp at h
          subst h
          rfl
      obtain ⟨hxeq, heq⟩ := gocCreate_registered hcl' hx
      exact ⟨hxeq, _, heq⟩
  · rw [if_neg hcap] at hx ⊢
    obtain ⟨hxeq, heq⟩ := gocCreate_registered hcl hx
    exact ⟨hxeq, _, heq⟩

/-- **C5, counterexample.**  Creating a fresh session: the event trace shows
`init()` awaited strictly BEFORE the session is registered in the pool map —
the claim's "registered before init() is awaited" fails. -/
theorem session_registered_after_init :
    (getOrCreateSession [] "s1" "https://notebooklm.google.com/nb" 3 0 false true).events
      = [.initAwaited "s1", .registered "s1"] ∧
    (getOrCreateSession [] "s1" "https://notebooklm.google.com/nb" 3 0 false
        true).events.findIdx (fun e => e == PoolEvent.initAwaited "s1") <
      (getOrCreateSession [] "s1" "https://notebooklm.google.com/nb" 3 0 false
        true).events.findIdx (fun e => e == PoolEvent.registered "s1") := by
  exact ⟨by decide, by decide⟩

/-- **C5, amended.**  A newly created session is registered in the pool's map
only AFTER its `init()` resolves: every registration event is immediately
preceded by the awaited `init()` at the end of the trace, and when `init()`
throws, the session is never registered and the resulting pool does not
contain its id. -/
theorem session_registration_follows_init :
    (∀ (pool : List MSession) (sid url : String) (maxSessions now : Nat)
      (modeChange initOk : Bool) (x : String),
      PoolEvent.registered x ∈
        (getOrCreateSession pool sid url maxSessions now modeChange initOk).events →
      x = sid ∧ ∃ pre,
        (getOrCreateSession pool sid url maxSessions now modeChange initOk).events
          = pre ++ [.initAwaited sid, .registered sid]) ∧
    (∀ (pool : List MSession) (sid url : String) (maxSessions now : Nat),
      trimStr url ≠ "" → startsWithStr (trimStr url) "http" = true →
      findSession pool sid = none →
      (PoolEvent.registered sid ∉
        (getOrCreateSession pool sid url maxSessions now false false).events) ∧
      ∀ s ∈ (getOrCreateSession pool sid url maxSessions now false false).pool,
        s.sessionId ≠ sid) := by
  constructor
  · intro pool sid url maxSessions now modeChange initOk x hx
    unfold getOrCreateSession gocResolve at hx ⊢
    by_cases hu1 : trimStr url = ""
    · rw [if_pos hu1] at hx
      exact absurd hx (by simp)
    · rw [if_neg hu1] at hx ⊢
      by_cases hu2 : (!startsWithStr (trimStr url) "http") = true
      · rw [if_pos hu2] at hx
        exact absurd hx (by simp)
      · rw [if_neg hu2] at hx ⊢
        have hclosed : ∀ e ∈ (if modeChange then
            pool.map (fun s => PoolEvent.closedSession s.sessionId)
            else ([] : List PoolEvent)), isClosedEvent e = true := by
          intro e he
          by_cases hmc : modeChange
          · rw [if_pos hmc] at he
            obtain ⟨s, -, rfl⟩ := List.mem_map.mp he
            rfl
          · rw [if_neg hmc] at he
            exact absurd he (by simp)
        cases hfind : findSession (if modeChange then [] else pool) sid with
        | none =>
          rw [hfind] at hx
          exact gocCapacity_registered hclosed hx
        | some s =>
          rw [hfind] at hx
          dsimp only at hx ⊢
          by_cases hdiff : s.notebookUrl ≠ trimStr url
          · rw [if_pos hdiff] at hx ⊢
            have hcl2 : ∀ e ∈ (if modeChange then
                pool.map (fun s => PoolEvent.closedSession s.sessionId)
                else ([] : List PoolEvent)) ++ [PoolEvent.closedSession sid],
                isClosedEvent e = true := by
              intro e he
              rcases List.mem_append.mp he with h | h
              · exact hclosed e h
              · simp at h
                subst h
                rfl
            exact gocCapacity_registered hcl2 hx
          · rw [if_neg hdiff] at hx
            exact absurd (hclosed _ hx) (by simp [isClosedEvent])
  · intro pool sid url maxSessions now hu1 hu2 hfresh
    unfold getOrCreateSession gocResolve
    rw [if_neg hu1, if_neg (by simp [hu2])]
    simp only [Bool.false_eq_true, if_false, hfresh]
    have hsub : ∀ s ∈ pool, s.sessionId ≠ sid := by
      intro s hs
      exact findSession_eq_none.mp hfresh s hs
    unfold gocCapacity
    by_cases hcap : maxSessions ≤ pool.length
    · rw [if_pos hcap]
      cases hcle : cleanupOldestSession pool with
      | none =>
        exact ⟨by simp, hsub⟩
      | some p =>
        obtain ⟨evicted, pool'⟩ := p
        have hpool' : pool' = eraseSession pool evicted := by
          unfold cleanupOldestSession at hcle
          by_cases hemp : pool.isEmpty = true
          · rw [if_pos hemp] at hcle
            exact absurd hcle (by simp)
          · rw [if_neg hemp] at hcle
            cases hfo : findOldestAux pool none with
            | none => rw [hfo] at hcle; exact absurd hcle (by simp)
            | some q =>
              rw [hfo] at hcle
              obtain ⟨qid, qt⟩ := q
              simp only [Option.some.injEq, Prod.mk.injEq] at hcle
              rw [← hcle.1]
              exact hcle.2.symm
        refine ⟨by simp [gocCreate], ?_⟩
        simp only [gocCreate]
        intro s hs
        exact hsub s (eraseSession_subset pool evicted s (hpool' ▸ hs))
    · rw [if_neg hcap]
      exact ⟨by simp [gocCreate], fun s hs => hsub s hs⟩

/-- Witness for C5 (amended): the fresh-creation trace ends with the
`init()`/registration pair in that order. -/
theorem session_registration_follows_init_witness :
    "s1" = "s1" ∧ ∃ pre,
      (getOrCreateSession [] "s1" "https://notebooklm.google.com/nb" 3 0 false
          true).events
        = pre ++ [PoolEvent.initAwaited "s1", PoolEvent.registered "s1"] :=
  session_registration_follows_init.1 [] "s1" "https://notebooklm.google.com/nb"
    3 0 false true "s1" (by decide)

/-! ## Claim C10 — `closeSession` -/

/-- **C10.**  `closeSession` returns `true` iff a session with the id is in
the pool; on `false` the pool is unchanged and nothing is closed; on `true`
exactly that session is closed and removed and every other session stays. -/
theorem closeSession_characterization (pool : List MSession) (id : String)
    (hnd : (pool.map (·.sessionId)).Nodup) :
    ((closeSession pool id).1 = true ↔ ∃ s ∈ pool, s.sessionId = id) ∧
    ((closeSession pool id).1 = false →
      (closeSession pool id).2.1 = pool ∧ (closeSession pool id).2.2 = []) ∧
    ((closeSession pool id).1 = true →
      (closeSession pool id).2.2 = [id] ∧
      ∀ s : MSession,
        (s ∈ (closeSession pool id).2.1 ↔ s ∈ pool ∧ s.sessionId ≠ id)) := by
  unfold closeSession
  cases hfind : findSession pool id with
  | none =>
    have hnone := findSession_eq_none.mp hfind
    refine ⟨⟨fun h => absurd h (by simp), ?_⟩, fun _ => ⟨rfl, rfl⟩,
      fun h => absurd h (by simp)⟩
    rintro ⟨s, hs, hsid⟩
    exact (hnone s hs hsid).elim
  | some s =>
    have hmem : s ∈ pool := List.mem_of_find?_eq_some hfind
    have hsid : s.sessionId = id := by
      have := List.find?_some hfind
      simpa using this
    refine ⟨⟨fun _ => ⟨s, hmem, hsid⟩, fun _ => rfl⟩, fun h => absurd h (by simp),
      fun _ => ⟨rfl, fun t => mem_eraseSession hnd t⟩⟩

/-- Witness for C10, on the pool `[A]`: closing `"A"` succeeds and closes
exactly `"A"`; closing the absent `"Z"` fails and leaves the pool unchanged. -/
theorem closeSession_characterization_witness :
    (closeSession [⟨"A", "u", 0, 0⟩] "A").1 = true ∧
    (closeSession [⟨"A", "u", 0, 0⟩] "A").2.2 = ["A"] ∧
    (closeSession [⟨"A", "u", 0, 0⟩] "Z").2.1 = [⟨"A", "u", 0, 0⟩] := by
  have h1 := closeSession_characterization [⟨"A", "u", 0, 0⟩] "A" (by decide)
  have h2 := closeSession_characterization [⟨"A", "u", 0, 0⟩] "Z" (by decide)
  have htrue : (closeSession [⟨"A", "u", 0, 0⟩] "A").1 = true :=
    h1.1.mpr ⟨⟨"A", "u", 0, 0⟩, List.mem_cons_self _ _, rfl⟩
  have hfalse : (closeSession [⟨"A", "u", 0, 0⟩] "Z").1 = false := by decide
  exact ⟨htrue, (h1.2.2 htrue).1, (h2.2.1 hfalse).1⟩

end NotebookLM
